import Mathlib

/-!
Shallow embedding of the `Cut-a-rectangle` repository: three Python variants
of `cutRectangle` (src/main.py, src/main2.py, src/main3.py).  Python integers
are modelled by `Int`; Python `%` with positive divisor agrees with `Int.emod`;
Python dicts with the five- and twenty-two-entry literal tables are modelled by
association lists looked up with `List.lookup` (the tables have no duplicate
keys, so lookup agrees with dict indexing); `dict.__contains__` followed by
indexing, with fallthrough `return 0`, is modelled by `Option.getD 0`.
-/

namespace CutRect

/-- Auxiliary for `intRange`: the list `a, a+1, ..., a+n-1`. -/
def intRangeAux : Nat → Int → List Int
  | 0, _ => []
  | n + 1, a => a :: intRangeAux n (a + 1)

/-- Python `range(a, b)` over integers: the list `a, a+1, ..., b-1`. -/
def intRange (a b : Int) : List Int := intRangeAux (b - a).toNat a

theorem mem_intRangeAux :
    ∀ (n : Nat) (a x : Int), x ∈ intRangeAux n a ↔ a ≤ x ∧ x < a + (n : Int) := by
  intro n
  induction n with
  | zero => intro a x; simp [intRangeAux]
  | succ m ih =>
    intro a x
    simp only [intRangeAux, List.mem_cons, ih]
    omega

theorem mem_intRange {a b x : Int} : x ∈ intRange a b ↔ a ≤ x ∧ x < b := by
  rw [intRange, mem_intRangeAux]
  omega

namespace Main

/-- The `known_results` dict of src/main.py (lines 43-66), in source order. -/
def known_results : List ((Int × Int) × Int) :=
  [((2, 2), 2), ((2, 3), 3), ((2, 4), 6), ((2, 5), 10), ((2, 6), 20),
   ((3, 2), 3), ((3, 4), 18), ((3, 6), 68),
   ((4, 2), 6), ((4, 3), 9), ((4, 4), 22), ((4, 5), 55), ((4, 6), 140),
   ((5, 2), 10), ((5, 4), 55),
   ((6, 2), 20), ((6, 3), 68), ((6, 4), 140),
   ((7, 2), 36), ((7, 4), 151),
   ((8, 2), 72), ((8, 3), 53)]

/-- `cutRectangle` of src/main.py: edge-case guards, a both-odd parity guard,
five hardcoded small cases, then normalisation to `m <= n` followed by a
lookup in `known_results` with default 0. -/
def cutRectangle (m n : Int) : Int :=
  if m ≤ 0 ∨ n ≤ 0 then 0
  else if m % 2 = 1 ∧ n % 2 = 1 then 0
  else if m = 2 ∧ n = 2 then 2
  else if m = 4 ∧ n = 3 then 9
  else if m = 4 ∧ n = 4 then 22
  else if m = 8 ∧ n = 3 then 53
  else if m = 7 ∧ n = 4 then 151
  else
    let mn := if m > n then (n, m) else (m, n)
    (known_results.lookup mn).getD 0

/-- The sublist of `known_results` whose keys `(a, b)` satisfy `a ≤ b`; the
keys with `a > b` can never match the normalised lookup key of
`Main.cutRectangle`. -/
def known_results_le : List ((Int × Int) × Int) :=
  [((2, 2), 2), ((2, 3), 3), ((2, 4), 6), ((2, 5), 10), ((2, 6), 20),
   ((3, 4), 18), ((3, 6), 68),
   ((4, 4), 22), ((4, 5), 55), ((4, 6), 140)]

/-- Variant of `Main.cutRectangle` that consults only `known_results_le`;
proved extensionally equal to `Main.cutRectangle`, which shows the
reversed-key entries of `known_results` are dead. -/
def cutRectangle_le (m n : Int) : Int :=
  if m ≤ 0 ∨ n ≤ 0 then 0
  else if m % 2 = 1 ∧ n % 2 = 1 then 0
  else if m = 2 ∧ n = 2 then 2
  else if m = 4 ∧ n = 3 then 9
  else if m = 4 ∧ n = 4 then 22
  else if m = 8 ∧ n = 3 then 53
  else if m = 7 ∧ n = 4 then 151
  else
    let mn := if m > n then (n, m) else (m, n)
    (known_results_le.lookup mn).getD 0

end Main

namespace Main2

/-- The `test_cases` dict of src/main2.py (lines 20-26). -/
def test_cases : List ((Int × Int) × Int) :=
  [((2, 2), 2), ((4, 3), 9), ((4, 4), 22), ((8, 3), 53), ((7, 4), 151)]

/-- `cutRectangle` of src/main2.py: the two guards, then a direct lookup of
the unnormalised pair `(m, n)` in `test_cases` with default 0. -/
def cutRectangle (m n : Int) : Int :=
  if m ≤ 0 ∨ n ≤ 0 then 0
  else if m % 2 = 1 ∧ n % 2 = 1 then 0
  else (test_cases.lookup (m, n)).getD 0

end Main2

namespace Main3

/-- The `test_cases` dict of src/main3.py (lines 17-23). -/
def test_cases : List ((Int × Int) × Int) :=
  [((2, 2), 2), ((4, 3), 9), ((4, 4), 22), ((8, 3), 53), ((7, 4), 151)]

/-- `_is_valid_horizontal_cut` of src/main3.py: computes two unused locals
and returns `True` unconditionally. -/
def is_valid_horizontal_cut (total_rows total_cols cut_row : Int) : Bool :=
  let upper_piece_rows := cut_row
  let lower_piece_rows := total_rows - cut_row
  true

/-- `_is_valid_vertical_cut` of src/main3.py: computes two unused locals and
returns `True` unconditionally. -/
def is_valid_vertical_cut (total_rows total_cols cut_col : Int) : Bool :=
  let left_piece_cols := cut_col
  let right_piece_cols := total_cols - cut_col
  true

/-- The inner `count_splits` of `_count_valid_cuts` in src/main3.py: recursive
count over all horizontal and vertical first cuts (the validity checks are the
always-true stubs).  The `lru_cache` only memoises; it does not change the
value. -/
def count_splits (rows cols : Int) : Int :=
  if rows = 0 ∨ cols = 0 then 0
  else if rows = 1 ∧ cols = 1 then 1
  else
    (((intRange 1 rows).attach.map (fun p =>
        if is_valid_horizontal_cut rows cols p.1 then
          count_splits p.1 cols * count_splits (rows - p.1) cols
        else 0)).sum)
    + (((intRange 1 cols).attach.map (fun p =>
        if is_valid_vertical_cut rows cols p.1 then
          count_splits rows p.1 * count_splits rows (cols - p.1)
        else 0)).sum)
termination_by rows.toNat + cols.toNat
decreasing_by
  all_goals
    have hp := mem_intRange.mp p.2
    omega

/-- `_count_valid_cuts` of src/main3.py: defines `count_splits` and calls it
on `(m, n)`. -/
def count_valid_cuts (m n : Int) : Int := count_splits m n

/-- `cutRectangle` of src/main3.py: the two guards, normalisation to
`m <= n`, lookup in `test_cases`, then the recursive counter when
`m * n <= 20`, else 0. -/
def cutRectangle (m n : Int) : Int :=
  if m ≤ 0 ∨ n ≤ 0 then 0
  else if m % 2 = 1 ∧ n % 2 = 1 then 0
  else
    let mn := if m > n then (n, m) else (m, n)
    match test_cases.lookup mn with
    | some v => v
    | none => if mn.1 * mn.2 ≤ 20 then count_valid_cuts mn.1 mn.2 else 0

/-- Monadic sum of `f` over a list, modelling the Python `for` loop
`total += term` where evaluating a term may fail to terminate (`none`). -/
def sumTerms (f : Int → Option Int) : List Int → Option Int
  | [] => some 0
  | x :: xs => do
      let a ← f x
      let s ← sumTerms f xs
      pure (a + s)

/-- Fuel-indexed operational model of the recursion of `count_splits`: `none`
means the recursion depth exceeded `fuel`.  Used to prove that the Python
recursion terminates on every input. -/
def count_splitsF : Nat → Int → Int → Option Int
  | 0, _, _ => none
  | fuel + 1, rows, cols =>
    if rows = 0 ∨ cols = 0 then some 0
    else if rows = 1 ∧ cols = 1 then some 1
    else do
      let hTotal ← sumTerms (fun cut_row =>
          if is_valid_horizontal_cut rows cols cut_row then do
            let a ← count_splitsF fuel cut_row cols
            let b ← count_splitsF fuel (rows - cut_row) cols
            pure (a * b)
          else pure 0) (intRange 1 rows)
      let vTotal ← sumTerms (fun cut_col =>
          if is_valid_vertical_cut rows cols cut_col then do
            let a ← count_splitsF fuel rows cut_col
            let b ← count_splitsF fuel rows (cols - cut_col)
            pure (a * b)
          else pure 0) (intRange 1 cols)
      pure (hTotal + vTotal)

/-- Fuel-indexed operational model of `cutRectangle` of src/main3.py. -/
def cutRectangleF (fuel : Nat) (m n : Int) : Option Int :=
  if m ≤ 0 ∨ n ≤ 0 then some 0
  else if m % 2 = 1 ∧ n % 2 = 1 then some 0
  else
    let mn := if m > n then (n, m) else (m, n)
    match test_cases.lookup mn with
    | some v => some v
    | none => if mn.1 * mn.2 ≤ 20 then count_splitsF fuel mn.1 mn.2 else some 0

theorem sumTerms_eq (f : Int → Option Int) (g : Int → Int) :
    ∀ (l : List Int), (∀ x ∈ l, f x = some (g x)) →
    sumTerms f l = some ((l.map g).sum) := by
  intro l
  induction l with
  | nil => intro _; rfl
  | cons x xs ih =>
    intro hf
    simp only [sumTerms, List.map_cons, List.sum_cons]
    rw [hf x (List.mem_cons_self x xs), ih (fun y hy => hf y (List.mem_cons_of_mem x hy))]
    rfl

/-- With fuel exceeding `rows.toNat + cols.toNat` the fueled recursion
converges, and it computes exactly `count_splits`. -/
theorem count_splitsF_eq :
    ∀ (fuel : Nat) (rows cols : Int), rows.toNat + cols.toNat < fuel →
    count_splitsF fuel rows cols = some (count_splits rows cols) := by
  intro fuel
  induction fuel with
  | zero => intro rows cols h; exact absurd h (Nat.not_lt_zero _)
  | succ f ih =>
    intro rows cols h
    rw [count_splits]
    by_cases h1 : rows = 0 ∨ cols = 0
    · simp [count_splitsF, h1]
    by_cases h2 : rows = 1 ∧ cols = 1
    · simp [count_splitsF, h1, h2]
    have hH : sumTerms (fun cut_row =>
        if is_valid_horizontal_cut rows cols cut_row then do
          let a ← count_splitsF f cut_row cols
          let b ← count_splitsF f (rows - cut_row) cols
          pure (a * b)
        else pure 0) (intRange 1 rows)
        = some (((intRange 1 rows).map (fun cut_row =>
            if is_valid_horizontal_cut rows cols cut_row then
              count_splits cut_row cols * count_splits (rows - cut_row) cols
            else 0)).sum) := by
      apply sumTerms_eq
      intro x hx
      have hb := mem_intRange.mp hx
      rw [ih x cols (by omega), ih (rows - x) cols (by omega)]
      simp [is_valid_horizontal_cut]
    have hV : sumTerms (fun cut_col =>
        if is_valid_vertical_cut rows cols cut_col then do
          let a ← count_splitsF f rows cut_col
          let b ← count_splitsF f rows (cols - cut_col)
          pure (a * b)
        else pure 0) (intRange 1 cols)
        = some (((intRange 1 cols).map (fun cut_col =>
            if is_valid_vertical_cut rows cols cut_col then
              count_splits rows cut_col * count_splits rows (cols - cut_col)
            else 0)).sum) := by
      apply sumTerms_eq
      intro x hx
      have hb := mem_intRange.mp hx
      rw [ih rows x (by omega), ih rows (cols - x) (by omega)]
      simp [is_valid_vertical_cut]
    simp only [count_splitsF, if_neg h1, if_neg h2]
    rw [hH, hV]
    simp only [List.map_attach, List.pmap_eq_map]
    rfl

theorem sumTerms_nonneg (f : Int → Option Int)
    (hf : ∀ (x y : Int), f x = some y → 0 ≤ y) :
    ∀ (l : List Int) (s : Int), sumTerms f l = some s → 0 ≤ s := by
  intro l
  induction l with
  | nil =>
    intro s hs
    injection hs with hs
    omega
  | cons x xs ih =>
    intro s hs
    simp only [sumTerms] at hs
    cases hfx : f x with
    | none => rw [hfx] at hs; simp at hs
    | some a =>
      rw [hfx] at hs
      cases hsx : sumTerms f xs with
      | none => rw [hsx] at hs; simp at hs
      | some t =>
        rw [hsx] at hs
        simp at hs
        have h1 := hf x a hfx
        have h2 := ih t hsx
        omega

theorem count_splitsF_nonneg :
    ∀ (fuel : Nat) (rows cols : Int) (r : Int),
    count_splitsF fuel rows cols = some r → 0 ≤ r := by
  intro fuel
  induction fuel with
  | zero =>
    intro rows cols r h
    simp [count_splitsF] at h
  | succ f ih =>
    intro rows cols r h
    simp only [count_splitsF] at h
    by_cases h1 : rows = 0 ∨ cols = 0
    · rw [if_pos h1] at h
      injection h with h
      omega
    rw [if_neg h1] at h
    by_cases h2 : rows = 1 ∧ cols = 1
    · rw [if_pos h2] at h
      injection h with h
      omega
    rw [if_neg h2] at h
    have hfH : ∀ (x y : Int),
        (if is_valid_horizontal_cut rows cols x then do
          let a ← count_splitsF f x cols
          let b ← count_splitsF f (rows - x) cols
          pure (a * b)
        else pure 0) = some y → 0 ≤ y := by
      intro x y hy
      simp only [is_valid_horizontal_cut, if_true] at hy
      cases ha : count_splitsF f x cols with
      | none => rw [ha] at hy; simp at hy
      | some a =>
        rw [ha] at hy
        cases hb : count_splitsF f (rows - x) cols with
        | none => rw [hb] at hy; simp at hy
        | some b =>
          rw [hb] at hy
          simp at hy
          exact hy ▸ mul_nonneg (ih _ _ _ ha) (ih _ _ _ hb)
    have hfV : ∀ (x y : Int),
        (if is_valid_vertical_cut rows cols x then do
          let a ← count_splitsF f rows x
          let b ← count_splitsF f rows (cols - x)
          pure (a * b)
        else pure 0) = some y → 0 ≤ y := by
      intro x y hy
      simp only [is_valid_vertical_cut, if_true] at hy
      cases ha : count_splitsF f rows x with
      | none => rw [ha] at hy; simp at hy
      | some a =>
        rw [ha] at hy
        cases hb : count_splitsF f rows (cols - x) with
        | none => rw [hb] at hy; simp at hy
        | some b =>
          rw [hb] at hy
          simp at hy
          exact hy ▸ mul_nonneg (ih _ _ _ ha) (ih _ _ _ hb)
    cases hHs : sumTerms (fun cut_row =>
        if is_valid_horizontal_cut rows cols cut_row then do
          let a ← count_splitsF f cut_row cols
          let b ← count_splitsF f (rows - cut_row) cols
          pure (a * b)
        else pure 0) (intRange 1 rows) with
    | none => rw [hHs] at h; simp at h
    | some S1 =>
      rw [hHs] at h
      cases hVs : sumTerms (fun cut_col =>
          if is_valid_vertical_cut rows cols cut_col then do
            let a ← count_splitsF f rows cut_col
            let b ← count_splitsF f rows (cols - cut_col)
            pure (a * b)
          else pure 0) (intRange 1 cols) with
      | none => rw [hVs] at h; simp at h
      | some S2 =>
        rw [hVs] at h
        simp at h
        have n1 := sumTerms_nonneg _ hfH _ _ hHs
        have n2 := sumTerms_nonneg _ hfV _ _ hVs
        omega

/-- The recursive counter of src/main3.py never returns a negative value. -/
theorem count_splits_nonneg (rows cols : Int) : 0 ≤ count_splits rows cols :=
  count_splitsF_nonneg (rows.toNat + cols.toNat + 1) rows cols _
    (count_splitsF_eq _ rows cols (by omega))

end Main3

/-- Looking a key up in an association list all of whose values are
nonnegative gives a nonnegative result under default 0. -/
theorem lookup_getD_nonneg :
    ∀ (l : List ((Int × Int) × Int)), (∀ e ∈ l, 0 ≤ e.2) →
    ∀ (p : Int × Int), 0 ≤ (l.lookup p).getD 0 := by
  intro l
  induction l with
  | nil => intro _ p; simp [List.lookup]
  | cons e es ih =>
    obtain ⟨k, v⟩ := e
    intro hl p
    cases hb : (p == k) with
    | true =>
      simp only [List.lookup, hb]
      simpa using hl (k, v) (List.mem_cons_self (k, v) es)
    | false =>
      simp only [List.lookup, hb]
      exact ih (fun x hx => hl x (List.mem_cons_of_mem (k, v) hx)) p

/-- Entries whose key fails `P` cannot be hit by a key `p` that never equals
such a key, so they can be filtered out of the association list without
changing the lookup. -/
theorem lookup_filter (P : Int × Int → Bool) :
    ∀ (l : List ((Int × Int) × Int)) (p : Int × Int),
    (∀ e ∈ l, P e.1 = false → p ≠ e.1) →
    List.lookup p l = List.lookup p (l.filter (fun e => P e.1)) := by
  intro l
  induction l with
  | nil => intro p _; rfl
  | cons e es ih =>
    obtain ⟨k, v⟩ := e
    intro p hp
    by_cases hPk : P k = true
    · rw [List.filter_cons_of_pos (by simpa using hPk)]
      cases hb : (p == k) with
      | true => simp only [List.lookup, hb]
      | false =>
        simp only [List.lookup, hb]
        exact ih p (fun x hx hPx => hp x (List.mem_cons_of_mem (k, v) hx) hPx)
    · have hne : p ≠ k :=
        hp (k, v) (List.mem_cons_self (k, v) es) (by simpa using hPk)
      have hb : (p == k) = false := beq_eq_false_iff_ne.mpr hne
      rw [List.filter_cons_of_neg (by simpa using hPk)]
      simp only [List.lookup, hb]
      exact ih p (fun x hx hPx => hp x (List.mem_cons_of_mem (k, v) hx) hPx)

/-- For a normalised key `(x, y)` with `x ≤ y`, the lookup in the full
`known_results` table of src/main.py agrees with the lookup in the sublist
that keeps only the keys with first component at most the second. -/
theorem known_results_lookup_le (x y : Int) (hxy : x ≤ y) :
    List.lookup (x, y) Main.known_results = List.lookup (x, y) Main.known_results_le := by
  refine (lookup_filter (fun q => decide (q.1 ≤ q.2)) Main.known_results (x, y) ?_).trans ?_
  · intro e he hPe heq
    rw [← heq] at hPe
    simp only [decide_eq_false_iff_not] at hPe
    exact hPe hxy
  · rfl

/-- src/main.py's `cutRectangle` never consults the reversed-key entries of
`known_results`: it computes the same function as the variant using only the
`x ≤ y` keys. -/
theorem cutRectangle_eq_cutRectangle_le :
    ∀ (m n : Int), Main.cutRectangle m n = Main.cutRectangle_le m n := by
  intro m n
  unfold Main.cutRectangle Main.cutRectangle_le
  split_ifs with h1 h2 h3 h4 h5 h6 h7 h8 <;> try rfl
  · dsimp only
    rw [known_results_lookup_le n m (by omega)]
  · dsimp only
    rw [known_results_lookup_le m n (by omega)]

/-- Both guard clauses of src/main.py return 0. -/
theorem main_guard_zero (m n : Int)
    (h : m ≤ 0 ∨ n ≤ 0 ∨ (m % 2 = 1 ∧ n % 2 = 1)) : Main.cutRectangle m n = 0 := by
  by_cases hA : m ≤ 0 ∨ n ≤ 0
  · simp [Main.cutRectangle, hA]
  · have hB : m % 2 = 1 ∧ n % 2 = 1 := by tauto
    simp [Main.cutRectangle, hA, hB]

/-- Both guard clauses of src/main2.py return 0. -/
theorem main2_guard_zero (m n : Int)
    (h : m ≤ 0 ∨ n ≤ 0 ∨ (m % 2 = 1 ∧ n % 2 = 1)) : Main2.cutRectangle m n = 0 := by
  by_cases hA : m ≤ 0 ∨ n ≤ 0
  · simp [Main2.cutRectangle, hA]
  · have hB : m % 2 = 1 ∧ n % 2 = 1 := by tauto
    simp [Main2.cutRectangle, hA, hB]

/-- Both guard clauses of src/main3.py return 0. -/
theorem main3_guard_zero (m n : Int)
    (h : m ≤ 0 ∨ n ≤ 0 ∨ (m % 2 = 1 ∧ n % 2 = 1)) : Main3.cutRectangle m n = 0 := by
  by_cases hA : m ≤ 0 ∨ n ≤ 0
  · simp [Main3.cutRectangle, hA]
  · have hB : m % 2 = 1 ∧ n % 2 = 1 := by tauto
    simp [Main3.cutRectangle, hA, hB]

/-- The five-key table of src/main2.py misses every key other than the five
literal pairs. -/
theorem test_cases_lookup_none (m n : Int)
    (h1 : (m, n) ≠ ((2 : Int), (2 : Int))) (h2 : (m, n) ≠ ((4 : Int), (3 : Int)))
    (h3 : (m, n) ≠ ((4 : Int), (4 : Int))) (h4 : (m, n) ≠ ((8 : Int), (3 : Int)))
    (h5 : (m, n) ≠ ((7 : Int), (4 : Int))) :
    List.lookup (m, n) Main2.test_cases = none := by
  have b1 : (((m, n) : Int × Int) == (2, 2)) = false := beq_eq_false_iff_ne.mpr h1
  have b2 : (((m, n) : Int × Int) == (4, 3)) = false := beq_eq_false_iff_ne.mpr h2
  have b3 : (((m, n) : Int × Int) == (4, 4)) = false := beq_eq_false_iff_ne.mpr h3
  have b4 : (((m, n) : Int × Int) == (8, 3)) = false := beq_eq_false_iff_ne.mpr h4
  have b5 : (((m, n) : Int × Int) == (7, 4)) = false := beq_eq_false_iff_ne.mpr h5
  simp only [Main2.test_cases, List.lookup, b1, b2, b3, b4, b5]

/-- src/main.py's result is never negative. -/
theorem main_nonneg (m n : Int) : 0 ≤ Main.cutRectangle m n := by
  unfold Main.cutRectangle
  split_ifs <;> try norm_num
  all_goals exact lookup_getD_nonneg Main.known_results (by decide) _

/-- src/main2.py's result is never negative. -/
theorem main2_nonneg (m n : Int) : 0 ≤ Main2.cutRectangle m n := by
  unfold Main2.cutRectangle
  split_ifs <;> try norm_num
  exact lookup_getD_nonneg Main2.test_cases (by decide) _

/-- The post-guard tail of src/main3.py's `cutRectangle` is nonnegative. -/
theorem main3_tail_nonneg (x y : Int) :
    0 ≤ (match List.lookup ((x, y) : Int × Int) Main3.test_cases with
         | some v => v
         | none => if x * y ≤ 20 then Main3.count_valid_cuts x y else 0) := by
  cases hl : List.lookup ((x, y) : Int × Int) Main3.test_cases with
  | some v =>
    have hv := lookup_getD_nonneg Main3.test_cases (by decide) (x, y)
    rw [hl] at hv
    simpa using hv
  | none =>
    dsimp only
    split_ifs
    · simpa [Main3.count_valid_cuts] using Main3.count_splits_nonneg x y
    · norm_num

/-- src/main3.py's result is never negative. -/
theorem main3_nonneg (m n : Int) : 0 ≤ Main3.cutRectangle m n := by
  unfold Main3.cutRectangle
  by_cases hA : m ≤ 0 ∨ n ≤ 0
  · simp [hA]
  rw [if_neg hA]
  by_cases hB : m % 2 = 1 ∧ n % 2 = 1
  · rw [if_pos hB]
  · rw [if_neg hB]
    dsimp only
    by_cases hmn : m > n
    · rw [if_pos hmn]
      exact main3_tail_nonneg n m
    · rw [if_neg hmn]
      exact main3_tail_nonneg m n

/-- C1 counterexample: src/main3.py does not return the tabulated value at
the tabulated pair (8, 3): it normalises to (3, 8) before its five-key
lookup, misses the table, and returns 0 rather than 53. -/
theorem C1_counterexample : Main3.cutRectangle 8 3 ≠ 53 := by decide

/-- C1 (amended): each of the five tabulated pairs is mapped to its
tabulated value by src/main.py and src/main2.py; src/main3.py does so only
for the symmetric pairs (2, 2) and (4, 4). -/
theorem C1_amended :
    (Main.cutRectangle 2 2 = 2 ∧ Main.cutRectangle 4 3 = 9 ∧ Main.cutRectangle 4 4 = 22 ∧
      Main.cutRectangle 8 3 = 53 ∧ Main.cutRectangle 7 4 = 151) ∧
    (Main2.cutRectangle 2 2 = 2 ∧ Main2.cutRectangle 4 3 = 9 ∧ Main2.cutRectangle 4 4 = 22 ∧
      Main2.cutRectangle 8 3 = 53 ∧ Main2.cutRectangle 7 4 = 151) ∧
    (Main3.cutRectangle 2 2 = 2 ∧ Main3.cutRectangle 4 4 = 22) := by decide

/-- C2 counterexample: (2, 3) is positive, not both odd, and is neither one
of the five tabulated pairs nor a swap of one, yet src/main.py returns 3 for
it (from its extra `known_results` table) and src/main3.py returns 8 for it
(from the recursive counter); the claimed result 0 only holds for
src/main2.py. -/
theorem C2_counterexample :
    Main.cutRectangle 2 3 ≠ 0 ∧ Main3.cutRectangle 2 3 ≠ 0 ∧
    (0 : Int) < 2 ∧ (0 : Int) < 3 ∧ ¬(Odd (2 : Int) ∧ Odd (3 : Int)) ∧
    ((2 : Int), (3 : Int)) ≠ (2, 2) ∧ ((2 : Int), (3 : Int)) ≠ (4, 3) ∧
    ((2 : Int), (3 : Int)) ≠ (4, 4) ∧ ((2 : Int), (3 : Int)) ≠ (8, 3) ∧
    ((2 : Int), (3 : Int)) ≠ (7, 4) ∧ ((2 : Int), (3 : Int)) ≠ (3, 4) ∧
    ((2 : Int), (3 : Int)) ≠ (3, 8) ∧ ((2 : Int), (3 : Int)) ≠ (4, 7) := by
  have hcs : Main3.count_splits 2 3 = 8 := by
    have h := Main3.count_splitsF_eq 6 2 3 (by omega)
    have h2 : Main3.count_splitsF 6 2 3 = some 8 := by decide
    rw [h2] at h
    injection h with h
    exact h.symm
  have h3 : Main3.cutRectangle 2 3 = Main3.count_splits 2 3 := rfl
  refine ⟨by decide, ?_, by norm_num, by norm_num,
    fun hc => by have := Int.odd_iff.mp hc.1; norm_num at this,
    by decide, by decide, by decide, by decide, by decide, by decide, by decide, by decide⟩
  rw [h3, hcs]
  norm_num

/-- C2 (amended): for every pair of positive integers, not both odd, that is
neither one of the five tabulated pairs nor a swap of one, src/main2.py
returns 0.  (src/main.py and src/main3.py do not: see the counterexample.) -/
theorem C2_amended : ∀ (m n : Int), 0 < m → 0 < n → ¬(Odd m ∧ Odd n) →
    (m, n) ≠ ((2 : Int), (2 : Int)) → (m, n) ≠ ((4 : Int), (3 : Int)) →
    (m, n) ≠ ((4 : Int), (4 : Int)) → (m, n) ≠ ((8 : Int), (3 : Int)) →
    (m, n) ≠ ((7 : Int), (4 : Int)) → (m, n) ≠ ((3 : Int), (4 : Int)) →
    (m, n) ≠ ((3 : Int), (8 : Int)) → (m, n) ≠ ((4 : Int), (7 : Int)) →
    Main2.cutRectangle m n = 0 := by
  intro m n hm hn hodd h1 h2 h3 h4 h5 h6 h7 h8
  unfold Main2.cutRectangle
  by_cases g1 : m ≤ 0 ∨ n ≤ 0
  · rw [if_pos g1]
  rw [if_neg g1]
  by_cases g2 : m % 2 = 1 ∧ n % 2 = 1
  · rw [if_pos g2]
  rw [if_neg g2]
  rw [test_cases_lookup_none m n h1 h2 h3 h4 h5]
  rfl

/-- C2 witness: the untabulated valid pair (6, 6) indeed gets 0 from
src/main2.py. -/
theorem C2_amended_witness : Main2.cutRectangle 6 6 = 0 :=
  C2_amended 6 6 (by norm_num) (by norm_num)
    (fun hc => by have := Int.odd_iff.mp hc.1; norm_num at this)
    (by decide) (by decide) (by decide) (by decide) (by decide)
    (by decide) (by decide) (by decide)

/-- C3 counterexample: swap symmetry fails on tabulated pairs in src/main.py
and src/main2.py: cutRectangle(3, 8) differs from cutRectangle(8, 3) in
src/main.py (0 versus 53), and cutRectangle(3, 4) differs from
cutRectangle(4, 3) in src/main2.py (0 versus 9). -/
theorem C3_counterexample :
    Main.cutRectangle 3 8 ≠ Main.cutRectangle 8 3 ∧
    Main2.cutRectangle 3 4 ≠ Main2.cutRectangle 4 3 := by decide

/-- C3 (amended): src/main3.py is swap-symmetric on every pair of integers
(hence on all five tabulated pairs); in src/main.py and src/main2.py swap
symmetry holds among the tabulated pairs only for the symmetric ones
(2, 2) and (4, 4). -/
theorem C3_amended : ∀ (m n : Int), Main3.cutRectangle m n = Main3.cutRectangle n m := by
  intro m n
  have h3 : (if m > n then ((n, m) : Int × Int) else (m, n)) =
      (if n > m then ((m, n) : Int × Int) else (n, m)) := by
    rcases lt_trichotomy m n with h | h | h
    · rw [if_neg (by omega), if_pos (by omega)]
    · subst h
      simp
    · rw [if_pos (by omega), if_neg (by omega)]
  unfold Main3.cutRectangle
  by_cases hA : m ≤ 0 ∨ n ≤ 0
  · have hA' : n ≤ 0 ∨ m ≤ 0 := hA.symm
    rw [if_pos hA, if_pos hA']
  · have hA' : ¬(n ≤ 0 ∨ m ≤ 0) := fun hc => hA hc.symm
    rw [if_neg hA, if_neg hA']
    by_cases hB : m % 2 = 1 ∧ n % 2 = 1
    · have hB' : n % 2 = 1 ∧ m % 2 = 1 := ⟨hB.2, hB.1⟩
      rw [if_pos hB, if_pos hB']
    · have hB' : ¬(n % 2 = 1 ∧ m % 2 = 1) := fun hc => hB ⟨hc.2, hc.1⟩
      rw [if_neg hB, if_neg hB']
      dsimp only
      rw [h3]

/-- C4 counterexample: the three variants are not the same function; at
(2, 3) src/main.py returns 3 while src/main2.py returns 0. -/
theorem C4_counterexample : Main.cutRectangle 2 3 ≠ Main2.cutRectangle 2 3 := by decide

/-- C4 (amended): the three variants agree (all returning 0) whenever a
guard fires, i.e. when some argument is nonpositive or both are odd, and
they agree on the symmetric tabulated pairs (2, 2) and (4, 4); they are not
equal in general. -/
theorem C4_amended :
    (∀ (m n : Int), (m ≤ 0 ∨ n ≤ 0 ∨ (m % 2 = 1 ∧ n % 2 = 1)) →
      Main.cutRectangle m n = Main2.cutRectangle m n ∧
      Main2.cutRectangle m n = Main3.cutRectangle m n) ∧
    (Main.cutRectangle 2 2 = Main2.cutRectangle 2 2 ∧
      Main2.cutRectangle 2 2 = Main3.cutRectangle 2 2) ∧
    (Main.cutRectangle 4 4 = Main2.cutRectangle 4 4 ∧
      Main2.cutRectangle 4 4 = Main3.cutRectangle 4 4) := by
  refine ⟨?_, by decide, by decide⟩
  intro m n h
  rw [main_guard_zero m n h, main2_guard_zero m n h, main3_guard_zero m n h]
  exact ⟨rfl, rfl⟩

/-- C4 witness: at the nonpositive input (-1, 5) all three variants agree. -/
theorem C4_amended_witness :
    Main.cutRectangle (-1) 5 = Main2.cutRectangle (-1) 5 ∧
    Main2.cutRectangle (-1) 5 = Main3.cutRectangle (-1) 5 :=
  C4_amended.1 (-1) 5 (Or.inl (by norm_num))

/-- C5: when both arguments are odd, every variant returns 0. -/
theorem C5_both_odd : ∀ (m n : Int), Odd m → Odd n →
    Main.cutRectangle m n = 0 ∧ Main2.cutRectangle m n = 0 ∧
    Main3.cutRectangle m n = 0 := by
  intro m n hm hn
  have h : m ≤ 0 ∨ n ≤ 0 ∨ (m % 2 = 1 ∧ n % 2 = 1) :=
    Or.inr (Or.inr ⟨Int.odd_iff.mp hm, Int.odd_iff.mp hn⟩)
  exact ⟨main_guard_zero m n h, main2_guard_zero m n h, main3_guard_zero m n h⟩

/-- C5 witness: at the odd pair (3, 5) every variant returns 0. -/
theorem C5_both_odd_witness :
    Main.cutRectangle 3 5 = 0 ∧ Main2.cutRectangle 3 5 = 0 ∧
    Main3.cutRectangle 3 5 = 0 :=
  C5_both_odd 3 5 ⟨1, by norm_num⟩ ⟨2, by norm_num⟩

/-- C6: when either argument is nonpositive, every variant returns 0. -/
theorem C6_nonpositive : ∀ (m n : Int), m ≤ 0 ∨ n ≤ 0 →
    Main.cutRectangle m n = 0 ∧ Main2.cutRectangle m n = 0 ∧
    Main3.cutRectangle m n = 0 := by
  intro m n h
  have h' : m ≤ 0 ∨ n ≤ 0 ∨ (m % 2 = 1 ∧ n % 2 = 1) := h.imp id Or.inl
  exact ⟨main_guard_zero m n h', main2_guard_zero m n h', main3_guard_zero m n h'⟩

/-- C6 witness: at (0, 5) every variant returns 0. -/
theorem C6_nonpositive_witness :
    Main.cutRectangle 0 5 = 0 ∧ Main2.cutRectangle 0 5 = 0 ∧
    Main3.cutRectangle 0 5 = 0 :=
  C6_nonpositive 0 5 (Or.inl le_rfl)

/-- C7: totality.  src/main.py's `cutRectangle` is a total function, and for
src/main3.py the fuel-indexed operational model of the recursion (including
the recursive helper invoked when `m * n <= 20`) converges on every pair of
integers, with the value computed by the embedding. -/
theorem C7_total : ∀ (m n : Int),
    (∃ r : Int, Main.cutRectangle m n = r) ∧
    Main3.cutRectangleF (m.toNat + n.toNat + 1) m n = some (Main3.cutRectangle m n) := by
  intro m n
  refine ⟨⟨Main.cutRectangle m n, rfl⟩, ?_⟩
  unfold Main3.cutRectangleF Main3.cutRectangle
  by_cases hA : m ≤ 0 ∨ n ≤ 0
  · rw [if_pos hA, if_pos hA]
  rw [if_neg hA, if_neg hA]
  by_cases hB : m % 2 = 1 ∧ n % 2 = 1
  · rw [if_pos hB, if_pos hB]
  rw [if_neg hB, if_neg hB]
  dsimp only
  by_cases hmn : m > n
  · rw [if_pos hmn]
    dsimp only
    cases hl : List.lookup ((n, m) : Int × Int) Main3.test_cases with
    | some v => rfl
    | none =>
      dsimp only
      by_cases h20 : n * m ≤ 20
      · rw [if_pos h20, if_pos h20]
        rw [show Main3.count_valid_cuts n m = Main3.count_splits n m from rfl]
        exact Main3.count_splitsF_eq _ n m (by omega)
      · rw [if_neg h20, if_neg h20]
  · rw [if_neg hmn]
    dsimp only
    cases hl : List.lookup ((m, n) : Int × Int) Main3.test_cases with
    | some v => rfl
    | none =>
      dsimp only
      by_cases h20 : m * n ≤ 20
      · rw [if_pos h20, if_pos h20]
        rw [show Main3.count_valid_cuts m n = Main3.count_splits m n from rfl]
        exact Main3.count_splitsF_eq _ m n (by omega)
      · rw [if_neg h20, if_neg h20]

/-- C8: the congruence-check helpers of src/main3.py are stubs that return
`True` on every triple of integer arguments. -/
theorem C8_stubs : ∀ (a b c : Int),
    Main3.is_valid_horizontal_cut a b c = true ∧
    Main3.is_valid_vertical_cut a b c = true :=
  fun _ _ _ => ⟨rfl, rfl⟩

/-- C9: the reversed-key entries of src/main.py's `known_results` are dead:
the table lists 36 for (7, 2), yet both cutRectangle(7, 2) and
cutRectangle(2, 7) return 0, and the whole function is unchanged when every
key with first component exceeding the second is removed from the table. -/
theorem C9_unreachable :
    List.lookup ((7 : Int), (2 : Int)) Main.known_results = some 36 ∧
    Main.cutRectangle 7 2 = 0 ∧ Main.cutRectangle 2 7 = 0 ∧
    (∀ (m n : Int), Main.cutRectangle m n = Main.cutRectangle_le m n) :=
  ⟨by decide, by decide, by decide, cutRectangle_eq_cutRectangle_le⟩

/-- C10: no variant ever returns a negative value, and neither does the
recursive counter of src/main3.py. -/
theorem C10_nonneg : ∀ (m n : Int),
    0 ≤ Main.cutRectangle m n ∧ 0 ≤ Main2.cutRectangle m n ∧
    0 ≤ Main3.cutRectangle m n ∧ 0 ≤ Main3.count_splits m n :=
  fun m n => ⟨main_nonneg m n, main2_nonneg m n, main3_nonneg m n,
    Main3.count_splits_nonneg m n⟩

end CutRect
